import Mathlib

set_option maxRecDepth 100000

/-
Shallow embedding of the Chalk dictionary module (apps/ck/lib/dict.c):
the tagged value model, the hashing dispatch (CkpHashValue / CkpHashObject),
the linear-probing loops (CkpDictFindEntry / CkpDictAddEntry), the resize
routine (CkpDictResize) and the public operations (CkpDictCreate,
CkpDictGet, CkpDictSet, CkpDictRemove).

Machine integers: UINTN / ULONG values are modelled as Nat with explicit
truncation (% 2^32) where the C code casts to ULONG; CK_INTEGER is modelled
as Int, truncated to its low 32 bits by the hash.  Fallible allocation is
modelled by an explicit allocOk flag on CkpDictResize; the public operations
are considered on the no-allocation-failure path (flag true), matching the
claims, and the failure path is kept for the error-handling claim.
-/

namespace Chalk

/-- String object (CK_STRING_OBJECT) as seen by dict.c: only its cached
32-bit Hash field is read; addr models the object's storage address. -/
structure CkString where
  Hash : Nat
  addr : Nat
  deriving DecidableEq, Repr

/-- Heap object variants dispatched on by CkpHashObject: a class carries its
name string, a range carries its From/To integer bounds, and any other
object is represented only by its storage address (UINTN). -/
inductive CkObject where
  | string (s : CkString)
  | classObj (Name : CkString) (addr : Nat)
  | range (From : Int) (To : Int) (addr : Nat)
  | other (addr : Nat)
  deriving DecidableEq, Repr

/-- CK_VALUE: tagged value with the variants the runtime exposes
(CkValueNull, CkValueInteger, CkValueObject, booleans) plus the internal
CK_UNDEFINED_VALUE sentinel used to mark empty/tombstone slots. -/
inductive CkValue where
  | undefined
  | null
  | boolean (b : Bool)
  | integer (i : Int)
  | object (o : CkObject)
  deriving DecidableEq, Repr

def CK_UNDEFINED_VALUE : CkValue := CkValue.undefined

def CK_NULL_VALUE : CkValue := CkValue.null

def CK_TRUE_VALUE : CkValue := CkValue.boolean true

/-- CK_IS_UNDEFINED macro. -/
def CK_IS_UNDEFINED : CkValue → Bool
  | CkValue.undefined => true
  | _ => false

/-- Modelled from the spec: CkpAreValuesEqual is an external collaborator
(its body is not in this repository).  Per the spec it is the runtime's
value-equality predicate, consistent with hashing; it is modelled as
structural equality on the value model, under which equal values hash
equal. -/
def CkpAreValuesEqual (a b : CkValue) : Bool := decide (a = b)

/-- CkpHashObject: class hashes to its name string's cached hash, a string
to its cached hash, a range to the XOR of the low 32 bits of its bounds,
and any other object to its address shifted right by 4 (cast to ULONG). -/
def CkpHashObject : CkObject → Nat
  | CkObject.classObj Name _ => Name.Hash
  | CkObject.string s => s.Hash
  | CkObject.range f t _ => (f % (2 ^ 32)).toNat ^^^ (t % (2 ^ 32)).toNat
  | CkObject.other addr => (addr >>> 4) % 2 ^ 32

/-- CkpHashValue: Null hashes to 0, an integer is truncated to its low
32 bits (ULONG cast), objects dispatch to CkpHashObject, and every other
variant falls into the default case returning 0. -/
def CkpHashValue : CkValue → Nat
  | CkValue.null => 0
  | CkValue.integer i => (i % (2 ^ 32)).toNat
  | CkValue.object o => CkpHashObject o
  | _ => 0

/-- CK_DICT_ENTRY: one slot of the backing array. -/
structure CkDictEntry where
  Key : CkValue
  Value : CkValue
  deriving DecidableEq, Repr

/-- A zeroed slot: both Key and Value undefined (the state CkZero leaves). -/
def emptyEntry : CkDictEntry := ⟨CK_UNDEFINED_VALUE, CK_UNDEFINED_VALUE⟩

/-- A deleted slot as CkpDictRemove writes it: Key undefined, Value true. -/
def tombstoneEntry : CkDictEntry := ⟨CK_UNDEFINED_VALUE, CK_TRUE_VALUE⟩

/-- CK_DICT: live-entry count, slot capacity, and the backing array
(modelled as a list whose length equals Capacity in every reachable
state). -/
structure CkDict where
  Count : Nat
  Capacity : Nat
  Entries : List CkDictEntry
  deriving DecidableEq, Repr

def DICT_LOAD_FACTOR : Nat := 768

def DICT_GROW_FACTOR : Nat := 2

def DICT_SHRINK_FACTOR : Nat := 3

def DICT_MIN_CAPACITY : Nat := 16

/-- Linear advance of the probe index with wraparound, as written in the C
loops (increment, reset to 0 on reaching Capacity). -/
def probeNext (Index Capacity : Nat) : Nat :=
  if Index + 1 = Capacity then 0 else Index + 1

/-- Loop body of CkpDictAddEntry: scan at most fuel slots from Index; claim
the first slot whose Key is undefined for the new pair (returning TRUE), or
overwrite the Value of the first slot whose Key equals the query key
(returning FALSE); FALSE with the array unchanged if the scan exhausts. -/
def addEntryLoop (Entries : List CkDictEntry) (Capacity : Nat)
    (Key Value : CkValue) : Nat → Nat → List CkDictEntry × Bool
  | _, 0 => (Entries, false)
  | Index, fuel + 1 =>
    if CK_IS_UNDEFINED (Entries.getD Index emptyEntry).Key then
      (Entries.set Index ⟨Key, Value⟩, true)
    else if CkpAreValuesEqual (Entries.getD Index emptyEntry).Key Key then
      (Entries.set Index ⟨(Entries.getD Index emptyEntry).Key, Value⟩, false)
    else
      addEntryLoop Entries Capacity Key Value (probeNext Index Capacity) fuel

/-- CkpDictAddEntry: insert or overwrite (Key, Value) in a raw entry array,
probing linearly from the key's hash for at most Capacity slots. -/
def CkpDictAddEntry (Entries : List CkDictEntry) (Capacity : Nat)
    (Key Value : CkValue) : List CkDictEntry × Bool :=
  addEntryLoop Entries Capacity Key Value (CkpHashValue Key % Capacity) Capacity

/-- Loop body of CkpDictFindEntry: stop with none at the first slot whose
Key and Value are both undefined, skip slots whose Key is undefined but
whose Value is defined (deleted slots), return the first slot whose Key
equals the query key, and give up after fuel slots. -/
def findEntryLoop (Entries : List CkDictEntry) (Capacity : Nat)
    (Key : CkValue) : Nat → Nat → Option Nat
  | _, 0 => none
  | Index, fuel + 1 =>
    if CK_IS_UNDEFINED (Entries.getD Index emptyEntry).Key then
      if CK_IS_UNDEFINED (Entries.getD Index emptyEntry).Value then
        none
      else
        findEntryLoop Entries Capacity Key (probeNext Index Capacity) fuel
    else if CkpAreValuesEqual (Entries.getD Index emptyEntry).Key Key then
      some Index
    else
      findEntryLoop Entries Capacity Key (probeNext Index Capacity) fuel

/-- CkpDictFindEntry: immediately not-found on an empty dictionary,
otherwise probe linearly from the key's hash for at most Capacity slots.
The returned entry pointer is modelled as the entry's index. -/
def CkpDictFindEntry (Dict : CkDict) (Key : CkValue) : Option Nat :=
  if Dict.Count = 0 then
    none
  else
    findEntryLoop Dict.Entries Dict.Capacity Key
      (CkpHashValue Key % Dict.Capacity) Dict.Capacity

/-- CkpDictCreate: a new dictionary has no backing array. -/
def CkpDictCreate : CkDict := { Count := 0, Capacity := 0, Entries := [] }

/-- CkpDictGet: value at the key, or CK_UNDEFINED_VALUE if absent. -/
def CkpDictGet (Dict : CkDict) (Key : CkValue) : CkValue :=
  match CkpDictFindEntry Dict Key with
  | some Index => (Dict.Entries.getD Index emptyEntry).Value
  | none => CK_UNDEFINED_VALUE

/-- The re-add loop of CkpDictResize: walk the old entry array in order and
re-insert every entry whose Key is defined into the new array (deleted
slots have an undefined Key and are filtered out). -/
def resizeReAdd (OldEntries NewEntries : List CkDictEntry)
    (NewCapacity : Nat) : List CkDictEntry :=
  OldEntries.foldl
    (fun acc OldEntry =>
      if CK_IS_UNDEFINED OldEntry.Key then
        acc
      else
        (CkpDictAddEntry acc NewCapacity OldEntry.Key OldEntry.Value).1)
    NewEntries

/-- CkpDictResize: on allocation success, build a zeroed array of
NewCapacity slots, re-add every old entry whose Key is defined, and install
the new array and capacity; on allocation failure return with the
dictionary untouched.  The CK_ASSERT at its entry is a debug assertion and
does not alter execution (see CkpDictResizeAssert below). -/
def CkpDictResize (Dict : CkDict) (NewCapacity : Nat) (allocOk : Bool) :
    CkDict :=
  if allocOk then
    { Dict with
      Entries := resizeReAdd Dict.Entries
        (List.replicate NewCapacity emptyEntry) NewCapacity,
      Capacity := NewCapacity }
  else
    Dict

/-- The debug assertion CK_ASSERT(NewCapacity > Dict->Count) at the top of
CkpDictResize (dict.c line 421), as a checkable condition. -/
def CkpDictResizeAssert (Dict : CkDict) (NewCapacity : Nat) : Bool :=
  decide (NewCapacity > Dict.Count)

/-- The grown capacity CkpDictSet requests: Capacity * DICT_GROW_FACTOR,
raised to DICT_MIN_CAPACITY if below it. -/
def growCapacityForSet (Dict : CkDict) : Nat :=
  if Dict.Capacity * DICT_GROW_FACTOR < DICT_MIN_CAPACITY then
    DICT_MIN_CAPACITY
  else
    Dict.Capacity * DICT_GROW_FACTOR

/-- The growth step at the top of CkpDictSet: resize to the grown capacity
when Count + 1 exceeds Capacity * DICT_LOAD_FACTOR / 1024. -/
def growStep (Dict : CkDict) : CkDict :=
  if Dict.Count + 1 > Dict.Capacity * DICT_LOAD_FACTOR / 1024 then
    CkpDictResize Dict (growCapacityForSet Dict) true
  else
    Dict

/-- CkpDictSet: grow when Count + 1 exceeds Capacity * 768 / 1024, then add
the entry, incrementing Count exactly when CkpDictAddEntry reports a newly
added key. -/
def CkpDictSet (Dict : CkDict) (Key Value : CkValue) : CkDict :=
  let d1 := growStep Dict
  let R := CkpDictAddEntry d1.Entries d1.Capacity Key Value
  { d1 with
    Entries := R.1
    Count := if R.2 then d1.Count + 1 else d1.Count }

/-- The shrink trigger of CkpDictRemove exactly as the C condition reads:
Capacity above the minimum, and the quotient
Count / (Capacity / DICT_SHRINK_FACTOR * DICT_LOAD_FACTOR / 1024) nonzero
(C truthiness of the quotient). -/
def CkpDictRemoveShrinkCondition (Dict : CkDict) : Bool :=
  decide (Dict.Capacity > DICT_MIN_CAPACITY) &&
    decide (Dict.Count /
      (Dict.Capacity / DICT_SHRINK_FACTOR * DICT_LOAD_FACTOR / 1024) ≠ 0)

/-- The shrunk capacity CkpDictRemove requests: Capacity / DICT_GROW_FACTOR,
raised to DICT_MIN_CAPACITY if below it. -/
def CkpDictRemoveShrinkCapacity (Dict : CkDict) : Nat :=
  if Dict.Capacity / DICT_GROW_FACTOR < DICT_MIN_CAPACITY then
    DICT_MIN_CAPACITY
  else
    Dict.Capacity / DICT_GROW_FACTOR

/-- The dictionary state of CkpDictRemove right after the found entry is
converted to a deleted slot (Key undefined, Value true) and Count is
decremented, before the shrink trigger is evaluated. -/
def removeTombstoned (Dict : CkDict) (Index : Nat) : CkDict :=
  { Dict with
    Entries := Dict.Entries.set Index ⟨CK_UNDEFINED_VALUE, CK_TRUE_VALUE⟩
    Count := Dict.Count - 1 }

/-- The shrink step at the tail of CkpDictRemove: when the shrink trigger
holds, resize to the shrunk capacity if it differs from the current one. -/
def removeShrinkStep (Dict : CkDict) : CkDict :=
  if CkpDictRemoveShrinkCondition Dict then
    if CkpDictRemoveShrinkCapacity Dict ≠ Dict.Capacity then
      CkpDictResize Dict (CkpDictRemoveShrinkCapacity Dict) true
    else
      Dict
  else
    Dict

/-- CkpDictRemove: find the key; if absent return CK_NULL_VALUE with the
dictionary untouched; if present capture the value, convert the slot to a
deleted slot, decrement Count, and evaluate the shrink trigger, resizing to
the shrunk capacity when it differs from the current one.  The GC root
push/pop around the resize protects the extracted value from collection and
has no effect on the dictionary state, so it is not modelled. -/
def CkpDictRemove (Dict : CkDict) (Key : CkValue) : CkDict × CkValue :=
  match CkpDictFindEntry Dict Key with
  | none => (Dict, CK_NULL_VALUE)
  | some Index =>
    (removeShrinkStep (removeTombstoned Dict Index),
      (Dict.Entries.getD Index emptyEntry).Value)

/-- Dictionary states reachable through create, set and remove on the
no-allocation-failure path. -/
inductive Reachable : CkDict → Prop where
  | create : Reachable CkpDictCreate
  | set (d : CkDict) (k v : CkValue) : Reachable d →
      Reachable (CkpDictSet d k v)
  | removeStep (d : CkDict) (k : CkValue) : Reachable d →
      Reachable (CkpDictRemove d k).1

/-- Slot index j steps along the probe path of Key in Dict. -/
def probeSlot (Dict : CkDict) (Key : CkValue) (j : Nat) : Nat :=
  (CkpHashValue Key % Dict.Capacity + j) % Dict.Capacity

/-- The entry stored at slot i. -/
def entryAt (Dict : CkDict) (i : Nat) : CkDictEntry :=
  Dict.Entries.getD i emptyEntry

/-- An Empty (never used) slot: Key and Value both undefined. -/
def isEmptySlot (e : CkDictEntry) : Bool :=
  CK_IS_UNDEFINED e.Key && CK_IS_UNDEFINED e.Value

/-- A Tombstone (deleted) slot: Key undefined, Value defined. -/
def isTombstoneSlot (e : CkDictEntry) : Bool :=
  CK_IS_UNDEFINED e.Key && !CK_IS_UNDEFINED e.Value

/-- A Live slot: Key defined. -/
def isLiveEntry (e : CkDictEntry) : Bool := !CK_IS_UNDEFINED e.Key

/-- Number of live slots of a backing array. -/
def liveCount (l : List CkDictEntry) : Nat := l.countP isLiveEntry

/-- The first n nonnegative integers as dictionary keys. -/
def intKeys (n : Nat) : List CkValue :=
  (List.range n).map (fun i => CkValue.integer (Int.ofNat i))

/-- Insert each key as its own value, in list order. -/
def insertAll (d : CkDict) (ks : List CkValue) : CkDict :=
  ks.foldl (fun d k => CkpDictSet d k k) d

/-- Remove each key in list order, keeping only the dictionary. -/
def removeAll (d : CkDict) (ks : List CkValue) : CkDict :=
  ks.foldl (fun d k => (CkpDictRemove d k).1) d

/-
Basic lemmas about the probe loops and the list primitives they use.
-/

theorem addEntryLoop_succ (E : List CkDictEntry) (C : Nat) (k v : CkValue)
    (Index fuel : Nat) :
    addEntryLoop E C k v Index (fuel + 1) =
      if CK_IS_UNDEFINED (E.getD Index emptyEntry).Key then
        (E.set Index ⟨k, v⟩, true)
      else if CkpAreValuesEqual (E.getD Index emptyEntry).Key k then
        (E.set Index ⟨(E.getD Index emptyEntry).Key, v⟩, false)
      else
        addEntryLoop E C k v (probeNext Index C) fuel := rfl

theorem findEntryLoop_succ (E : List CkDictEntry) (C : Nat) (k : CkValue)
    (Index fuel : Nat) :
    findEntryLoop E C k Index (fuel + 1) =
      if CK_IS_UNDEFINED (E.getD Index emptyEntry).Key then
        if CK_IS_UNDEFINED (E.getD Index emptyEntry).Value then
          none
        else
          findEntryLoop E C k (probeNext Index C) fuel
      else if CkpAreValuesEqual (E.getD Index emptyEntry).Key k then
        some Index
      else
        findEntryLoop E C k (probeNext Index C) fuel := rfl

theorem getD_set_self {α : Type} :
    ∀ (l : List α) (i : Nat) (e d : α), i < l.length →
      (l.set i e).getD i d = e := by
  intro l
  induction l with
  | nil => intro i e d h; simp at h
  | cons a t ih =>
    intro i e d h
    cases i with
    | zero => rfl
    | succ n => exact ih n e d (by simpa using h)

theorem getD_set_diff {α : Type} :
    ∀ (l : List α) (i j : Nat) (e d : α), i ≠ j →
      (l.set i e).getD j d = l.getD j d := by
  intro l
  induction l with
  | nil => intro i j e d h; rfl
  | cons a t ih =>
    intro i j e d h
    cases i with
    | zero =>
      cases j with
      | zero => exact absurd rfl h
      | succ m => rfl
    | succ n =>
      cases j with
      | zero => rfl
      | succ m => exact ih n m e d (fun hh => h (by rw [hh]))

theorem getD_oob {α : Type} :
    ∀ (l : List α) (i : Nat) (d : α), l.length ≤ i → l.getD i d = d := by
  intro l
  induction l with
  | nil => intro i d _; rfl
  | cons a t ih =>
    intro i d h
    cases i with
    | zero => simp at h
    | succ n => exact ih n d (by simpa using h)

theorem getD_mem {α : Type} :
    ∀ (l : List α) (i : Nat) (d : α), i < l.length → l.getD i d ∈ l := by
  intro l
  induction l with
  | nil => intro i d h; simp at h
  | cons a t ih =>
    intro i d h
    cases i with
    | zero => exact List.mem_cons_self a t
    | succ n => exact List.mem_cons_of_mem a (ih n d (by simpa using h))

theorem getD_index_of_mem {α : Type} :
    ∀ (l : List α) (a : α) (d : α), a ∈ l →
      ∃ i, i < l.length ∧ l.getD i d = a := by
  intro l
  induction l with
  | nil => intro a d h; simp at h
  | cons b t ih =>
    intro a d h
    rcases List.mem_cons.mp h with h1 | h1
    · exact ⟨0, by simp, h1.symm⟩
    · obtain ⟨i, hi, hget⟩ := ih a d h1
      exact ⟨i + 1, by simpa using hi, hget⟩

theorem probeNext_eq_mod (Index C : Nat) (h : Index < C) :
    probeNext Index C = (Index + 1) % C := by
  unfold probeNext
  by_cases h1 : Index + 1 = C
  · rw [if_pos h1, h1, Nat.mod_self]
  · rw [if_neg h1, Nat.mod_eq_of_lt (by omega)]

theorem probeNext_lt (Index C : Nat) (h : Index < C) :
    probeNext Index C < C := by
  unfold probeNext
  by_cases h1 : Index + 1 = C
  · rw [if_pos h1]; omega
  · rw [if_neg h1]; omega

theorem mod_shift_ne (a s C : Nat) (hs : 0 < s) (hsC : s < C) :
    (a + s) % C ≠ a % C := by
  have hC : 0 < C := by omega
  have h1 : (a + s) % C = (a % C + s) % C := by
    rw [Nat.add_mod, Nat.mod_eq_of_lt hsC]
  rw [h1]
  have hr : a % C < C := Nat.mod_lt a hC
  rcases Nat.lt_or_ge (a % C + s) C with h2 | h2
  · rw [Nat.mod_eq_of_lt h2]; omega
  · rw [Nat.mod_eq_sub_mod h2, Nat.mod_eq_of_lt (by omega)]; omega

theorem probe_index_ne (start i j C : Nat) (hij : i < j) (hj : j < C) :
    (start + i) % C ≠ (start + j) % C := by
  intro hh
  have h1 : start + j = start + i + (j - i) := by omega
  rw [h1] at hh
  exact mod_shift_ne (start + i) (j - i) C (by omega) (by omega) hh.symm

theorem probe_shift (Index C m : Nat) :
    ((Index + 1) % C + m) % C = (Index + (m + 1)) % C := by
  rw [Nat.mod_add_mod]
  congr 1
  omega

/-
Characterization of the insertion loop: it claims the first slot on the
probe path whose Key is undefined, or overwrites the value of the first
slot whose Key equals the query key, whichever comes first.
-/

theorem addEntryLoop_free (E : List CkDictEntry) (C : Nat) (k v : CkValue) :
    ∀ (j Index fuel : Nat), Index < C → j < fuel →
    CK_IS_UNDEFINED ((E.getD ((Index + j) % C) emptyEntry).Key) = true →
    (∀ i, i < j →
      CK_IS_UNDEFINED ((E.getD ((Index + i) % C) emptyEntry).Key) = false ∧
      CkpAreValuesEqual ((E.getD ((Index + i) % C) emptyEntry).Key) k = false) →
    addEntryLoop E C k v Index fuel =
      (E.set ((Index + j) % C) ⟨k, v⟩, true) := by
  intro j
  induction j with
  | zero =>
    intro Index fuel hI hf hfree _
    match fuel, hf with
    | fuel + 1, _ =>
      have hp : (Index + 0) % C = Index := by
        rw [Nat.add_zero, Nat.mod_eq_of_lt hI]
      rw [hp] at hfree ⊢
      rw [addEntryLoop_succ, if_pos hfree]
  | succ j ih =>
    intro Index fuel hI hf hfree hprev
    match fuel, hf with
    | fuel + 1, hf =>
      have h0 := hprev 0 (Nat.succ_pos j)
      rw [Nat.add_zero, Nat.mod_eq_of_lt hI] at h0
      rw [addEntryLoop_succ, if_neg (by rw [h0.1]; exact Bool.false_ne_true),
        if_neg (by rw [h0.2]; exact Bool.false_ne_true),
        probeNext_eq_mod Index C hI]
      have hres := ih ((Index + 1) % C) fuel (Nat.mod_lt _ (by omega))
        (by omega)
        (by rw [probe_shift]; exact hfree)
        (by
          intro i hi
          rw [probe_shift]
          exact hprev (i + 1) (by omega))
      rw [hres, probe_shift]

theorem addEntryLoop_overwrite (E : List CkDictEntry) (C : Nat)
    (k v : CkValue) :
    ∀ (j Index fuel : Nat), Index < C → j < fuel →
    CK_IS_UNDEFINED ((E.getD ((Index + j) % C) emptyEntry).Key) = false →
    CkpAreValuesEqual ((E.getD ((Index + j) % C) emptyEntry).Key) k = true →
    (∀ i, i < j →
      CK_IS_UNDEFINED ((E.getD ((Index + i) % C) emptyEntry).Key) = false ∧
      CkpAreValuesEqual ((E.getD ((Index + i) % C) emptyEntry).Key) k = false) →
    addEntryLoop E C k v Index fuel =
      (E.set ((Index + j) % C) ⟨k, v⟩, false) := by
  intro j
  induction j with
  | zero =>
    intro Index fuel hI hf hdef heq _
    match fuel, hf with
    | fuel + 1, _ =>
      have hp : (Index + 0) % C = Index := by
        rw [Nat.add_zero, Nat.mod_eq_of_lt hI]
      rw [hp] at hdef heq ⊢
      have hkey : (E.getD Index emptyEntry).Key = k := by
        have := heq
        unfold CkpAreValuesEqual at this
        exact of_decide_eq_true this
      rw [addEntryLoop_succ, if_neg (by rw [hdef]; exact Bool.false_ne_true),
        if_pos heq, hkey]
  | succ j ih =>
    intro Index fuel hI hf hdef heq hprev
    match fuel, hf with
    | fuel + 1, hf =>
      have h0 := hprev 0 (Nat.succ_pos j)
      rw [Nat.add_zero, Nat.mod_eq_of_lt hI] at h0
      rw [addEntryLoop_succ, if_neg (by rw [h0.1]; exact Bool.false_ne_true),
        if_neg (by rw [h0.2]; exact Bool.false_ne_true),
        probeNext_eq_mod Index C hI]
      have hres := ih ((Index + 1) % C) fuel (Nat.mod_lt _ (by omega))
        (by omega)
        (by rw [probe_shift]; exact hdef)
        (by rw [probe_shift]; exact heq)
        (by
          intro i hi
          rw [probe_shift]
          exact hprev (i + 1) (by omega))
      rw [hres, probe_shift]

/-
Characterization of the lookup loop: it stops with failure at the first
slot with both Key and Value undefined, continues through slots whose Key
is undefined but Value defined (deleted slots) and through live slots with
a different key, and succeeds at the first live slot whose key equals the
query key.
-/

theorem findEntryLoop_stops_empty (E : List CkDictEntry) (C : Nat)
    (k : CkValue) :
    ∀ (j Index fuel : Nat), Index < C → j < fuel →
    CK_IS_UNDEFINED ((E.getD ((Index + j) % C) emptyEntry).Key) = true →
    CK_IS_UNDEFINED ((E.getD ((Index + j) % C) emptyEntry).Value) = true →
    (∀ i, i < j →
      (CK_IS_UNDEFINED ((E.getD ((Index + i) % C) emptyEntry).Key) = true ∧
       CK_IS_UNDEFINED ((E.getD ((Index + i) % C) emptyEntry).Value) = false) ∨
      (CK_IS_UNDEFINED ((E.getD ((Index + i) % C) emptyEntry).Key) = false ∧
       CkpAreValuesEqual ((E.getD ((Index + i) % C) emptyEntry).Key) k = false)) →
    findEntryLoop E C k Index fuel = none := by
  intro j
  induction j with
  | zero =>
    intro Index fuel hI hf hkey hval _
    match fuel, hf with
    | fuel + 1, _ =>
      have hp : (Index + 0) % C = Index := by
        rw [Nat.add_zero, Nat.mod_eq_of_lt hI]
      rw [hp] at hkey hval
      rw [findEntryLoop_succ, if_pos hkey, if_pos hval]
  | succ j ih =>
    intro Index fuel hI hf hkey hval hprev
    match fuel, hf with
    | fuel + 1, hf =>
      have h0 := hprev 0 (Nat.succ_pos j)
      rw [Nat.add_zero, Nat.mod_eq_of_lt hI] at h0
      have hres := ih ((Index + 1) % C) fuel (Nat.mod_lt _ (by omega))
        (by omega)
        (by rw [probe_shift]; exact hkey)
        (by rw [probe_shift]; exact hval)
        (by
          intro i hi
          rw [probe_shift]
          exact hprev (i + 1) (by omega))
      rcases h0 with ⟨h1, h2⟩ | ⟨h1, h2⟩
      · rw [findEntryLoop_succ, if_pos h1,
          if_neg (by rw [h2]; exact Bool.false_ne_true),
          probeNext_eq_mod Index C hI]
        exact hres
      · rw [findEntryLoop_succ, if_neg (by rw [h1]; exact Bool.false_ne_true),
          if_neg (by rw [h2]; exact Bool.false_ne_true),
          probeNext_eq_mod Index C hI]
        exact hres

theorem findEntryLoop_found (E : List CkDictEntry) (C : Nat) (k : CkValue) :
    ∀ (j Index fuel : Nat), Index < C → j < fuel →
    CK_IS_UNDEFINED ((E.getD ((Index + j) % C) emptyEntry).Key) = false →
    CkpAreValuesEqual ((E.getD ((Index + j) % C) emptyEntry).Key) k = true →
    (∀ i, i < j →
      (CK_IS_UNDEFINED ((E.getD ((Index + i) % C) emptyEntry).Key) = true ∧
       CK_IS_UNDEFINED ((E.getD ((Index + i) % C) emptyEntry).Value) = false) ∨
      (CK_IS_UNDEFINED ((E.getD ((Index + i) % C) emptyEntry).Key) = false ∧
       CkpAreValuesEqual ((E.getD ((Index + i) % C) emptyEntry).Key) k = false)) →
    findEntryLoop E C k Index fuel = some ((Index + j) % C) := by
  intro j
  induction j with
  | zero =>
    intro Index fuel hI hf hdef heq _
    match fuel, hf with
    | fuel + 1, _ =>
      have hp : (Index + 0) % C = Index := by
        rw [Nat.add_zero, Nat.mod_eq_of_lt hI]
      rw [hp] at hdef heq ⊢
      rw [findEntryLoop_succ, if_neg (by rw [hdef]; exact Bool.false_ne_true),
        if_pos heq]
  | succ j ih =>
    intro Index fuel hI hf hdef heq hprev
    match fuel, hf with
    | fuel + 1, hf =>
      have h0 := hprev 0 (Nat.succ_pos j)
      rw [Nat.add_zero, Nat.mod_eq_of_lt hI] at h0
      have hres := ih ((Index + 1) % C) fuel (Nat.mod_lt _ (by omega))
        (by omega)
        (by rw [probe_shift]; exact hdef)
        (by rw [probe_shift]; exact heq)
        (by
          intro i hi
          rw [probe_shift]
          exact hprev (i + 1) (by omega))
      rw [probe_shift] at hres
      rcases h0 with ⟨h1, h2⟩ | ⟨h1, h2⟩
      · rw [findEntryLoop_succ, if_pos h1,
          if_neg (by rw [h2]; exact Bool.false_ne_true),
          probeNext_eq_mod Index C hI]
        exact hres
      · rw [findEntryLoop_succ, if_neg (by rw [h1]; exact Bool.false_ne_true),
          if_neg (by rw [h2]; exact Bool.false_ne_true),
          probeNext_eq_mod Index C hI]
        exact hres

theorem findEntryLoop_some (E : List CkDictEntry) (C : Nat) (k : CkValue) :
    ∀ (fuel Index m : Nat), Index < C →
    findEntryLoop E C k Index fuel = some m →
    m < C ∧ CK_IS_UNDEFINED ((E.getD m emptyEntry).Key) = false ∧
      (E.getD m emptyEntry).Key = k := by
  intro fuel
  induction fuel with
  | zero => intro Index m hI h; cases h
  | succ fuel ih =>
    intro Index m hI h
    rw [findEntryLoop_succ] at h
    by_cases h1 : CK_IS_UNDEFINED (E.getD Index emptyEntry).Key = true
    · rw [if_pos h1] at h
      by_cases h2 : CK_IS_UNDEFINED (E.getD Index emptyEntry).Value = true
      · rw [if_pos h2] at h; cases h
      · rw [if_neg h2] at h
        exact ih (probeNext Index C) m (probeNext_lt Index C hI) h
    · rw [if_neg h1] at h
      by_cases h3 : CkpAreValuesEqual (E.getD Index emptyEntry).Key k = true
      · rw [if_pos h3] at h
        cases h
        refine ⟨hI, by simpa using h1, ?_⟩
        unfold CkpAreValuesEqual at h3
        exact of_decide_eq_true h3
      · rw [if_neg h3] at h
        exact ih (probeNext Index C) m (probeNext_lt Index C hI) h

/-
Counting live slots: how the primitive mutations change liveCount, and the
resulting structural invariant of reachable dictionaries.
-/

theorem liveCount_nil : liveCount [] = 0 := rfl

theorem liveCount_cons (e : CkDictEntry) (t : List CkDictEntry) :
    liveCount (e :: t) =
      liveCount t + if isLiveEntry e = true then 1 else 0 :=
  List.countP_cons isLiveEntry e t

theorem liveCount_set_le (l : List CkDictEntry) :
    ∀ (i : Nat) (e : CkDictEntry), liveCount (l.set i e) ≤ liveCount l + 1 := by
  induction l with
  | nil => intro i e; simp [liveCount]
  | cons a t ih =>
    intro i e
    cases i with
    | zero =>
      show liveCount (e :: t) ≤ liveCount (a :: t) + 1
      rw [liveCount_cons, liveCount_cons]
      have hb : (if isLiveEntry e = true then 1 else 0) ≤ 1 := by
        split <;> omega
      omega
    | succ n =>
      show liveCount (a :: t.set n e) ≤ liveCount (a :: t) + 1
      rw [liveCount_cons, liveCount_cons]
      have := ih n e
      omega

theorem liveCount_set_nonlive (l : List CkDictEntry) :
    ∀ (i : Nat) (e : CkDictEntry), i < l.length →
      isLiveEntry (l.getD i emptyEntry) = true → isLiveEntry e = false →
      liveCount (l.set i e) + 1 = liveCount l := by
  induction l with
  | nil => intro i e h; simp at h
  | cons a t ih =>
    intro i e h hl he
    cases i with
    | zero =>
      show liveCount (e :: t) + 1 = liveCount (a :: t)
      rw [liveCount_cons, liveCount_cons]
      have ha : isLiveEntry a = true := hl
      rw [ha, he]
      simp
    | succ n =>
      show liveCount (a :: t.set n e) + 1 = liveCount (a :: t)
      rw [liveCount_cons, liveCount_cons]
      have := ih n e (by simpa using h) hl he
      omega

theorem liveCount_set_live (l : List CkDictEntry) :
    ∀ (i : Nat) (e : CkDictEntry), i < l.length →
      isLiveEntry (l.getD i emptyEntry) = true → isLiveEntry e = true →
      liveCount (l.set i e) = liveCount l := by
  induction l with
  | nil => intro i e h; simp at h
  | cons a t ih =>
    intro i e h hl he
    cases i with
    | zero =>
      show liveCount (e :: t) = liveCount (a :: t)
      rw [liveCount_cons, liveCount_cons]
      have ha : isLiveEntry a = true := hl
      rw [ha, he]
    | succ n =>
      show liveCount (a :: t.set n e) = liveCount (a :: t)
      rw [liveCount_cons, liveCount_cons]
      have := ih n e (by simpa using h) hl he
      omega

theorem liveCount_le_length (l : List CkDictEntry) :
    liveCount l ≤ l.length :=
  List.countP_le_length isLiveEntry

theorem liveCount_pos_of_live (l : List CkDictEntry) (i : Nat)
    (h : i < l.length) (hl : isLiveEntry (l.getD i emptyEntry) = true) :
    0 < liveCount l :=
  List.countP_pos_iff.mpr ⟨l.getD i emptyEntry, getD_mem l i emptyEntry h, hl⟩

theorem liveCount_replicate_empty (n : Nat) :
    liveCount (List.replicate n emptyEntry) = 0 := by
  unfold liveCount
  rw [List.countP_replicate]
  simp [isLiveEntry, emptyEntry, CK_IS_UNDEFINED, CK_UNDEFINED_VALUE]

theorem exists_nonlive_of_liveCount_lt (l : List CkDictEntry)
    (h : liveCount l < l.length) :
    ∃ p, p < l.length ∧ isLiveEntry (l.getD p emptyEntry) = false := by
  by_contra hcon
  push_neg at hcon
  have hall : ∀ a ∈ l, isLiveEntry a = true := by
    intro a ha
    obtain ⟨i, hi, hget⟩ := getD_index_of_mem l a emptyEntry ha
    have h2 := hcon i hi
    rw [hget] at h2
    simpa using h2
  have := List.countP_eq_length.mpr hall
  unfold liveCount at h
  omega

theorem addEntryLoop_shape (E : List CkDictEntry) (C : Nat) (k v : CkValue) :
    ∀ (fuel Index : Nat),
      (addEntryLoop E C k v Index fuel).1 = E ∨
      ∃ i e, (addEntryLoop E C k v Index fuel).1 = E.set i e := by
  intro fuel
  induction fuel with
  | zero => intro Index; exact Or.inl rfl
  | succ fuel ih =>
    intro Index
    rw [addEntryLoop_succ]
    by_cases h1 : CK_IS_UNDEFINED (E.getD Index emptyEntry).Key = true
    · rw [if_pos h1]
      exact Or.inr ⟨Index, ⟨k, v⟩, rfl⟩
    · rw [if_neg h1]
      by_cases h2 : CkpAreValuesEqual (E.getD Index emptyEntry).Key k = true
      · rw [if_pos h2]
        exact Or.inr ⟨Index, ⟨(E.getD Index emptyEntry).Key, v⟩, rfl⟩
      · rw [if_neg h2]
        exact ih (probeNext Index C)

theorem addEntryLoop_length (E : List CkDictEntry) (C : Nat) (k v : CkValue)
    (fuel Index : Nat) :
    (addEntryLoop E C k v Index fuel).1.length = E.length := by
  rcases addEntryLoop_shape E C k v fuel Index with h | ⟨i, e, h⟩
  · rw [h]
  · rw [h, List.length_set]

theorem addEntryLoop_liveCount_le (E : List CkDictEntry) (C : Nat)
    (k v : CkValue) (fuel Index : Nat) :
    liveCount (addEntryLoop E C k v Index fuel).1 ≤ liveCount E + 1 := by
  rcases addEntryLoop_shape E C k v fuel Index with h | ⟨i, e, h⟩
  · rw [h]; omega
  · rw [h]; exact liveCount_set_le E i e

theorem addEntryLoop_false_liveCount (E : List CkDictEntry) (C : Nat)
    (k v : CkValue) :
    ∀ (fuel Index : Nat), (addEntryLoop E C k v Index fuel).2 = false →
      liveCount (addEntryLoop E C k v Index fuel).1 = liveCount E := by
  intro fuel
  induction fuel with
  | zero => intro Index _; rfl
  | succ fuel ih =>
    intro Index hfalse
    rw [addEntryLoop_succ] at hfalse ⊢
    by_cases h1 : CK_IS_UNDEFINED (E.getD Index emptyEntry).Key = true
    · rw [if_pos h1] at hfalse; cases hfalse
    · rw [if_neg h1] at hfalse ⊢
      by_cases h2 : CkpAreValuesEqual (E.getD Index emptyEntry).Key k = true
      · rw [if_pos h2]
        have hlen : Index < E.length := by
          by_contra hcon
          rw [getD_oob E Index emptyEntry (by omega)] at h1
          exact h1 rfl
        have h1f : CK_IS_UNDEFINED (E.getD Index emptyEntry).Key = false := by
          simpa using h1
        show liveCount
          (E.set Index ⟨(E.getD Index emptyEntry).Key, v⟩) = liveCount E
        apply liveCount_set_live E Index _ hlen
        · unfold isLiveEntry
          rw [h1f]
          rfl
        · show (!CK_IS_UNDEFINED (E.getD Index emptyEntry).Key) = true
          rw [h1f]
          rfl
      · rw [if_neg h2] at hfalse ⊢
        exact ih (probeNext Index C) hfalse

theorem resizeReAdd_cons (e : CkDictEntry) (t acc : List CkDictEntry)
    (n : Nat) :
    resizeReAdd (e :: t) acc n =
      resizeReAdd t
        (if CK_IS_UNDEFINED e.Key then acc
         else (CkpDictAddEntry acc n e.Key e.Value).1) n := rfl

theorem resizeReAdd_length (old : List CkDictEntry) :
    ∀ (acc : List CkDictEntry) (n : Nat),
      (resizeReAdd old acc n).length = acc.length := by
  induction old with
  | nil => intro acc n; rfl
  | cons e t ih =>
    intro acc n
    rw [resizeReAdd_cons]
    by_cases h : CK_IS_UNDEFINED e.Key = true
    · rw [if_pos h]
      exact ih acc n
    · rw [if_neg h, ih]
      unfold CkpDictAddEntry
      exact addEntryLoop_length acc n e.Key e.Value n _

theorem resizeReAdd_liveCount (old : List CkDictEntry) :
    ∀ (acc : List CkDictEntry) (n : Nat),
      liveCount (resizeReAdd old acc n) ≤ liveCount acc + liveCount old := by
  induction old with
  | nil =>
    intro acc n
    rw [liveCount_nil]
    exact Nat.le_refl _
  | cons e t ih =>
    intro acc n
    rw [resizeReAdd_cons, liveCount_cons]
    by_cases h : CK_IS_UNDEFINED e.Key = true
    · rw [if_pos h]
      have hlive : isLiveEntry e = true → False := by
        intro hl
        unfold isLiveEntry at hl
        rw [h] at hl
        cases hl
      have hl0 : (if isLiveEntry e = true then 1 else 0) = 0 := by
        split
        · exact absurd (by assumption) hlive
        · rfl
      have := ih acc n
      omega
    · rw [if_neg h]
      have h1 := ih (CkpDictAddEntry acc n e.Key e.Value).1 n
      have h2 : liveCount (CkpDictAddEntry acc n e.Key e.Value).1 ≤
          liveCount acc + 1 :=
        addEntryLoop_liveCount_le acc n e.Key e.Value n _
      have hl1 : (if isLiveEntry e = true then 1 else 0) = 1 := by
        unfold isLiveEntry
        have hf : CK_IS_UNDEFINED e.Key = false := by simpa using h
        rw [hf]
        rfl
      omega

theorem resize_length (d : CkDict) (n : Nat) :
    (CkpDictResize d n true).Entries.length = n := by
  show (resizeReAdd d.Entries (List.replicate n emptyEntry) n).length = n
  rw [resizeReAdd_length, List.length_replicate]

theorem resize_capacity (d : CkDict) (n : Nat) :
    (CkpDictResize d n true).Capacity = n := rfl

theorem resize_count (d : CkDict) (n : Nat) :
    (CkpDictResize d n true).Count = d.Count := rfl

theorem resize_liveCount (d : CkDict) (n : Nat) :
    liveCount (CkpDictResize d n true).Entries ≤ liveCount d.Entries := by
  show liveCount (resizeReAdd d.Entries (List.replicate n emptyEntry) n) ≤
    liveCount d.Entries
  have h := resizeReAdd_liveCount d.Entries (List.replicate n emptyEntry) n
  rw [liveCount_replicate_empty] at h
  omega

/-- The structural invariant of reachable dictionaries: the backing array
has exactly Capacity slots and at most Count of them are live. -/
def DictInv (d : CkDict) : Prop :=
  d.Entries.length = d.Capacity ∧ liveCount d.Entries ≤ d.Count

theorem dictInv_resize (d : CkDict) (n : Nat) (h : DictInv d) :
    DictInv (CkpDictResize d n true) := by
  refine ⟨by rw [resize_length, resize_capacity], ?_⟩
  rw [resize_count]
  exact le_trans (resize_liveCount d n) h.2

theorem ckpDictFindEntry_some (d : CkDict) (k : CkValue) (i : Nat)
    (h : CkpDictFindEntry d k = some i) :
    d.Count ≠ 0 ∧ i < d.Capacity ∧
      CK_IS_UNDEFINED ((d.Entries.getD i emptyEntry).Key) = false ∧
      (d.Entries.getD i emptyEntry).Key = k := by
  unfold CkpDictFindEntry at h
  by_cases hc : d.Count = 0
  · rw [if_pos hc] at h; cases h
  · rw [if_neg hc] at h
    have hcap : d.Capacity ≠ 0 := by
      intro h0
      rw [h0] at h
      cases h
    have hstart : CkpHashValue k % d.Capacity < d.Capacity :=
      Nat.mod_lt _ (by omega)
    have := findEntryLoop_some d.Entries d.Capacity k d.Capacity
      (CkpHashValue k % d.Capacity) i hstart h
    exact ⟨hc, this⟩

theorem dictInv_growStep (d : CkDict) (h : DictInv d) :
    DictInv (growStep d) := by
  unfold growStep
  by_cases hg : d.Count + 1 > d.Capacity * DICT_LOAD_FACTOR / 1024
  · rw [if_pos hg]
    exact dictInv_resize d _ h
  · rw [if_neg hg]
    exact h

theorem dictInv_set (d : CkDict) (k v : CkValue) (h : DictInv d) :
    DictInv (CkpDictSet d k v) := by
  have h1 := dictInv_growStep d h
  show DictInv
    { growStep d with
      Entries := (CkpDictAddEntry (growStep d).Entries (growStep d).Capacity
        k v).1
      Count := if (CkpDictAddEntry (growStep d).Entries (growStep d).Capacity
        k v).2 then (growStep d).Count + 1 else (growStep d).Count }
  constructor
  · show (CkpDictAddEntry (growStep d).Entries (growStep d).Capacity
        k v).1.length = (growStep d).Capacity
    unfold CkpDictAddEntry
    rw [addEntryLoop_length]
    exact h1.1
  · by_cases hb : (CkpDictAddEntry (growStep d).Entries (growStep d).Capacity
        k v).2 = true
    · simp only [hb, if_true]
      have := addEntryLoop_liveCount_le (growStep d).Entries
        (growStep d).Capacity k v (growStep d).Capacity
        (CkpHashValue k % (growStep d).Capacity)
      have h2 := h1.2
      unfold CkpDictAddEntry
      omega
    · have hb2 : (CkpDictAddEntry (growStep d).Entries (growStep d).Capacity
          k v).2 = false := by simpa using hb
      simp only [hb2, if_false, Bool.false_eq_true]
      unfold CkpDictAddEntry at hb2 ⊢
      rw [addEntryLoop_false_liveCount _ _ _ _ _ _ hb2]
      exact h1.2

theorem dictInv_removeShrinkStep (d : CkDict) (h : DictInv d) :
    DictInv (removeShrinkStep d) := by
  unfold removeShrinkStep
  by_cases h1 : CkpDictRemoveShrinkCondition d = true
  · rw [if_pos h1]
    by_cases h2 : CkpDictRemoveShrinkCapacity d ≠ d.Capacity
    · rw [if_pos h2]
      exact dictInv_resize d _ h
    · rw [if_neg h2]
      exact h
  · rw [if_neg h1]
    exact h

theorem dictInv_remove (d : CkDict) (k : CkValue) (h : DictInv d) :
    DictInv (CkpDictRemove d k).1 := by
  unfold CkpDictRemove
  cases hf : CkpDictFindEntry d k with
  | none => exact h
  | some i =>
    obtain ⟨hc, hi, hkey, -⟩ := ckpDictFindEntry_some d k i hf
    apply dictInv_removeShrinkStep
    constructor
    · show (d.Entries.set i ⟨CK_UNDEFINED_VALUE, CK_TRUE_VALUE⟩).length =
        d.Capacity
      rw [List.length_set]
      exact h.1
    · show liveCount (d.Entries.set i ⟨CK_UNDEFINED_VALUE, CK_TRUE_VALUE⟩) ≤
        d.Count - 1
      have hlive : isLiveEntry (d.Entries.getD i emptyEntry) = true := by
        unfold isLiveEntry
        rw [hkey]
        rfl
      have hset := liveCount_set_nonlive d.Entries i
        ⟨CK_UNDEFINED_VALUE, CK_TRUE_VALUE⟩ (by rw [h.1]; exact hi) hlive
        (by decide)
      have h2 := h.2
      omega

theorem reachable_inv (d : CkDict) (h : Reachable d) : DictInv d := by
  induction h with
  | create => exact ⟨rfl, Nat.le_refl 0⟩
  | set d k v _ ih => exact dictInv_set d k v ih
  | removeStep d k _ ih => exact dictInv_remove d k ih

/-- A slot on the probe path at which the insertion loop terminates: either
its Key is undefined (the loop claims it) or its Key equals the query key
(the loop overwrites its value). -/
def freeOrMatch (E : List CkDictEntry) (C : Nat) (k : CkValue)
    (start m : Nat) : Prop :=
  CK_IS_UNDEFINED ((E.getD ((start + m) % C) emptyEntry).Key) = true ∨
  (CK_IS_UNDEFINED ((E.getD ((start + m) % C) emptyEntry).Key) = false ∧
   CkpAreValuesEqual ((E.getD ((start + m) % C) emptyEntry).Key) k = true)

instance (E : List CkDictEntry) (C : Nat) (k : CkValue) (start m : Nat) :
    Decidable (freeOrMatch E C k start m) := by
  unfold freeOrMatch
  infer_instance

theorem addEntry_then_find (E : List CkDictEntry) (C : Nat) (k v : CkValue)
    (hk : CK_IS_UNDEFINED k = false) (hlen : E.length = C)
    (hlive : liveCount E < C) :
    ∃ m, m < C ∧
      findEntryLoop (CkpDictAddEntry E C k v).1 C k (CkpHashValue k % C) C =
        some m ∧
      ((CkpDictAddEntry E C k v).1.getD m emptyEntry).Value = v ∧
      CK_IS_UNDEFINED (((CkpDictAddEntry E C k v).1.getD m emptyEntry).Key) =
        false := by
  have hC : 0 < C := by omega
  obtain ⟨p, hpE, hpfree⟩ := exists_nonlive_of_liveCount_lt E (by omega)
  have hpC : p < C := by omega
  set start := CkpHashValue k % C with hstartdef
  have hstartC : start < C := Nat.mod_lt _ hC
  have hj0 : ∃ j0, j0 < C ∧ (start + j0) % C = p := by
    by_cases hps : start ≤ p
    · refine ⟨p - start, by omega, ?_⟩
      have h1 : start + (p - start) = p := by omega
      rw [h1, Nat.mod_eq_of_lt hpC]
    · refine ⟨p + C - start, by omega, ?_⟩
      have h1 : start + (p + C - start) = p + C := by omega
      rw [h1, Nat.add_mod_right, Nat.mod_eq_of_lt hpC]
  obtain ⟨j0, hj0C, hj0p⟩ := hj0
  have hfm0 : freeOrMatch E C k start j0 := by
    unfold freeOrMatch
    rw [hj0p]
    refine Or.inl ?_
    unfold isLiveEntry at hpfree
    simpa using hpfree
  have hPex : ∃ m, freeOrMatch E C k start m := ⟨j0, hfm0⟩
  set j := Nat.find hPex with hjdef
  have hjC : j < C := Nat.lt_of_le_of_lt (Nat.find_min' hPex hfm0) hj0C
  have hprev : ∀ i, i < j →
      CK_IS_UNDEFINED ((E.getD ((start + i) % C) emptyEntry).Key) = false ∧
      CkpAreValuesEqual ((E.getD ((start + i) % C) emptyEntry).Key) k =
        false := by
    intro i hi
    have hni := Nat.find_min hPex hi
    unfold freeOrMatch at hni
    push_neg at hni
    obtain ⟨h1, h2⟩ := hni
    have h1f : CK_IS_UNDEFINED ((E.getD ((start + i) % C) emptyEntry).Key) =
        false := by simpa using h1
    refine ⟨h1f, ?_⟩
    simpa using h2 h1f
  have haddE : (CkpDictAddEntry E C k v).1 =
      E.set ((start + j) % C) ⟨k, v⟩ := by
    rcases Nat.find_spec hPex with hfree | ⟨hdef, heq⟩
    · rw [show CkpDictAddEntry E C k v =
        addEntryLoop E C k v start C from rfl]
      rw [addEntryLoop_free E C k v j start C hstartC hjC hfree hprev]
    · rw [show CkpDictAddEntry E C k v =
        addEntryLoop E C k v start C from rfl]
      rw [addEntryLoop_overwrite E C k v j start C hstartC hjC hdef heq hprev]
  have hmlen : (start + j) % C < E.length := by
    rw [hlen]
    exact Nat.mod_lt _ hC
  have hget : (E.set ((start + j) % C) ⟨k, v⟩).getD ((start + j) % C)
      emptyEntry = ⟨k, v⟩ :=
    getD_set_self E ((start + j) % C) ⟨k, v⟩ emptyEntry hmlen
  refine ⟨(start + j) % C, Nat.mod_lt _ hC, ?_, ?_, ?_⟩
  · rw [haddE]
    apply findEntryLoop_found (E.set ((start + j) % C) ⟨k, v⟩) C k j start C
      hstartC hjC
    · rw [hget]
      exact hk
    · rw [hget]
      unfold CkpAreValuesEqual
      simp
    · intro i hi
      rw [getD_set_diff E ((start + j) % C) ((start + i) % C) ⟨k, v⟩
        emptyEntry (Ne.symm (probe_index_ne start i j C hi hjC))]
      exact Or.inr (hprev i hi)
  · rw [haddE, hget]
  · rw [haddE, hget]
    exact hk

/-- C6: for every reachable dictionary and every non-sentinel key, a get
immediately following a set (with no allocation failure) returns the value
just set. -/
theorem set_then_get_returns_value (d : CkDict) (k v : CkValue)
    (hr : Reachable d) (hk : CK_IS_UNDEFINED k = false) :
    CkpDictGet (CkpDictSet d k v) k = v := by
  have hinv := reachable_inv d hr
  have hinv1 := dictInv_growStep d hinv
  have hlive1 : liveCount (growStep d).Entries < (growStep d).Capacity := by
    unfold growStep
    by_cases hg : d.Count + 1 > d.Capacity * DICT_LOAD_FACTOR / 1024
    · rw [if_pos hg, resize_capacity]
      have h1 := resize_liveCount d (growCapacityForSet d)
      have h2 := liveCount_le_length d.Entries
      have h3 := hinv.1
      have h4 : d.Capacity < growCapacityForSet d := by
        unfold growCapacityForSet DICT_GROW_FACTOR DICT_MIN_CAPACITY
        by_cases h5 : d.Capacity * 2 < 16
        · rw [if_pos h5]; omega
        · rw [if_neg h5]; omega
      omega
    · rw [if_neg hg]
      have h2 := hinv.2
      have h3 := hinv.1
      rw [show DICT_LOAD_FACTOR = 768 from rfl] at hg
      omega
  obtain ⟨m, hmC, hfind, hval, hkey⟩ := addEntry_then_find
    (growStep d).Entries (growStep d).Capacity k v hk hinv1.1 hlive1
  have hset : CkpDictSet d k v =
      { Count := if (CkpDictAddEntry (growStep d).Entries
          (growStep d).Capacity k v).2 then (growStep d).Count + 1
          else (growStep d).Count,
        Capacity := (growStep d).Capacity,
        Entries := (CkpDictAddEntry (growStep d).Entries
          (growStep d).Capacity k v).1 } := rfl
  have hcount : (if (CkpDictAddEntry (growStep d).Entries
      (growStep d).Capacity k v).2 then (growStep d).Count + 1
      else (growStep d).Count) ≠ 0 := by
    by_cases hb : (CkpDictAddEntry (growStep d).Entries
        (growStep d).Capacity k v).2 = true
    · rw [if_pos hb]; omega
    · have hb2 : (CkpDictAddEntry (growStep d).Entries
          (growStep d).Capacity k v).2 = false := by simpa using hb
      rw [if_neg (by rw [hb2]; exact Bool.false_ne_true)]
      have hmlen : m < (CkpDictAddEntry (growStep d).Entries
          (growStep d).Capacity k v).1.length := by
        unfold CkpDictAddEntry
        rw [addEntryLoop_length, hinv1.1]
        exact hmC
      have hlc : 0 < liveCount (CkpDictAddEntry (growStep d).Entries
          (growStep d).Capacity k v).1 := by
        apply liveCount_pos_of_live _ m hmlen
        unfold isLiveEntry
        rw [hkey]
        rfl
      have heq2 : liveCount (CkpDictAddEntry (growStep d).Entries
          (growStep d).Capacity k v).1 = liveCount (growStep d).Entries := by
        unfold CkpDictAddEntry at hb2 ⊢
        exact addEntryLoop_false_liveCount _ _ _ _ _ _ hb2
      have h2 := hinv1.2
      omega
  rw [hset]
  unfold CkpDictGet CkpDictFindEntry
  rw [if_neg hcount]
  rw [hfind]
  exact hval

theorem reachable_insertAll (d : CkDict) (ks : List CkValue)
    (h : Reachable d) : Reachable (insertAll d ks) := by
  induction ks generalizing d with
  | nil => exact h
  | cons k t ih => exact ih (CkpDictSet d k k) (Reachable.set d k k h)

theorem reachable_removeAll (d : CkDict) (ks : List CkValue)
    (h : Reachable d) : Reachable (removeAll d ks) := by
  induction ks generalizing d with
  | nil => exact h
  | cons k t ih =>
    exact ih (CkpDictRemove d k).1 (Reachable.removeStep d k h)

/-
Concrete dictionaries used to exercise the claims.
-/

/-- Integer keys 0..12 inserted into a fresh dictionary: Count 13 at
Capacity 32. -/
def c1d : CkDict := insertAll CkpDictCreate (intKeys 13)

/-- The state inside CkpDictRemove c1d 0 right before the shrink trigger. -/
def c1mid : CkDict := removeTombstoned c1d 0

/-- Integer keys 0..24 inserted into a fresh dictionary: Count 25 at
Capacity 64. -/
def c3d : CkDict := insertAll CkpDictCreate (intKeys 25)

/-- c3d after removing key 0: Count 24 at Capacity 32 (first shrink). -/
def c3a : CkDict := (CkpDictRemove c3d (CkValue.integer 0)).1

/-- The state inside CkpDictRemove c3a 1 right before the shrink trigger. -/
def c3mid : CkDict := removeTombstoned c3a 1

/-- Integer keys 0..17 inserted and then all 18 removed, in order. -/
def c4dict : CkDict :=
  removeAll (insertAll CkpDictCreate (intKeys 18)) (intKeys 18)

/-- Integer keys 0..47 inserted, keys 0 and 1 removed (two erroneous
shrinks), then a fresh key set. -/
def c5dict : CkDict :=
  CkpDictSet
    ((CkpDictRemove
      ((CkpDictRemove (insertAll CkpDictCreate (intKeys 48))
        (CkValue.integer 0)).1)
      (CkValue.integer 1)).1)
    (CkValue.integer 100) (CkValue.integer 100)

/-- Keys 0 and 16 (which both hash to slot 0 at capacity 16) inserted into
a fresh dictionary. -/
def c7base : CkDict :=
  CkpDictSet (CkpDictSet CkpDictCreate (CkValue.integer 0)
    (CkValue.integer 100)) (CkValue.integer 16) (CkValue.integer 116)

/-- A single mapping 3 -> 9 in a fresh dictionary. -/
def c9present : CkDict :=
  CkpDictSet CkpDictCreate (CkValue.integer 3) (CkValue.integer 9)

/-- An array whose first probe slot for key 0 is a tombstone and whose
second slot is the first Empty slot. -/
def tombFirstEntries : List CkDictEntry :=
  tombstoneEntry :: List.replicate 15 emptyEntry

/-
The claims.
-/

/-- C1: the shrink trigger of CkpDictRemove is inverted with respect to the
claim.  On the reachable dictionary c1d (13 keys at Capacity 32), removing
a present key leaves Count 12, the truncated quotient
Count / (Capacity/3 * 768/1024) equals 1 (nonzero), and the code takes the
shrink path anyway, halving Capacity to 16 — while the claim asserts the
shrink path is taken exactly when that quotient equals zero. -/
theorem remove_shrink_trigger_fires_on_nonzero_quotient :
    Reachable c1d ∧
    c1d.Count = 13 ∧ c1d.Capacity = 32 ∧
    CkpDictFindEntry c1d (CkValue.integer 0) = some 0 ∧
    c1mid.Count /
      (c1mid.Capacity / DICT_SHRINK_FACTOR * DICT_LOAD_FACTOR / 1024) = 1 ∧
    CkpDictRemoveShrinkCondition c1mid = true ∧
    (CkpDictRemove c1d (CkValue.integer 0)).1.Capacity = 16 :=
  ⟨reachable_insertAll CkpDictCreate (intKeys 13) Reachable.create,
    by decide, by decide, by decide, by decide, by decide, by decide⟩

/-- C2 counterexample: at an explicit array whose slot 0 is a Tombstone and
whose slot 1 is the first Empty slot on key 0's probe path, CkpDictAddEntry
writes the new key into the Tombstone slot 0 and leaves the Empty slot 1
untouched — refuting the claim that tombstone slots are skipped and the
first Empty slot written. -/
theorem addEntry_claims_tombstone_slot :
    isTombstoneSlot (tombFirstEntries.getD 0 emptyEntry) = true ∧
    isEmptySlot (tombFirstEntries.getD 1 emptyEntry) = true ∧
    (CkpDictAddEntry tombFirstEntries 16 (CkValue.integer 0)
      (CkValue.integer 5)).2 = true ∧
    (CkpDictAddEntry tombFirstEntries 16 (CkValue.integer 0)
      (CkValue.integer 5)).1.getD 0 emptyEntry =
      ⟨CkValue.integer 0, CkValue.integer 5⟩ ∧
    (CkpDictAddEntry tombFirstEntries 16 (CkValue.integer 0)
      (CkValue.integer 5)).1.getD 1 emptyEntry = emptyEntry ∧
    (CkpDictAddEntry tombFirstEntries 16 (CkValue.integer 0)
      (CkValue.integer 5)).1 ≠
      tombFirstEntries.set 1 ⟨CkValue.integer 0, CkValue.integer 5⟩ := by
  refine ⟨by decide, by decide, by decide, by decide, by decide, by decide⟩

/-- C2 (amended): CkpDictAddEntry writes a new key/value into the first
slot on its probe path whose Key is undefined — whether Empty or Tombstone
— and reports new; a Live slot with an equal key reached before any such
slot gets its value overwritten, reported not new. -/
theorem addEntry_first_undefined_slot_spec :
    (∀ (E : List CkDictEntry) (C : Nat) (k v : CkValue) (j : Nat), j < C →
      CK_IS_UNDEFINED ((E.getD ((CkpHashValue k % C + j) % C)
        emptyEntry).Key) = true →
      (∀ i, i < j →
        isLiveEntry (E.getD ((CkpHashValue k % C + i) % C) emptyEntry) =
          true ∧
        CkpAreValuesEqual ((E.getD ((CkpHashValue k % C + i) % C)
          emptyEntry).Key) k = false) →
      CkpDictAddEntry E C k v =
        (E.set ((CkpHashValue k % C + j) % C) ⟨k, v⟩, true)) ∧
    (∀ (E : List CkDictEntry) (C : Nat) (k v : CkValue) (j : Nat), j < C →
      isLiveEntry (E.getD ((CkpHashValue k % C + j) % C) emptyEntry) =
        true →
      CkpAreValuesEqual ((E.getD ((CkpHashValue k % C + j) % C)
        emptyEntry).Key) k = true →
      (∀ i, i < j →
        isLiveEntry (E.getD ((CkpHashValue k % C + i) % C) emptyEntry) =
          true ∧
        CkpAreValuesEqual ((E.getD ((CkpHashValue k % C + i) % C)
          emptyEntry).Key) k = false) →
      CkpDictAddEntry E C k v =
        (E.set ((CkpHashValue k % C + j) % C) ⟨k, v⟩, false)) := by
  constructor
  · intro E C k v j hj hfree hprev
    have hC : 0 < C := by omega
    apply addEntryLoop_free E C k v j (CkpHashValue k % C) C
      (Nat.mod_lt _ hC) hj hfree
    intro i hi
    obtain ⟨h1, h2⟩ := hprev i hi
    refine ⟨by simpa [isLiveEntry] using h1, h2⟩
  · intro E C k v j hj hlivej heq hprev
    have hC : 0 < C := by omega
    apply addEntryLoop_overwrite E C k v j (CkpHashValue k % C) C
      (Nat.mod_lt _ hC) hj (by simpa [isLiveEntry] using hlivej) heq
    intro i hi
    obtain ⟨h1, h2⟩ := hprev i hi
    refine ⟨by simpa [isLiveEntry] using h1, h2⟩

/-- Witness for the amended C2 theorem: inserting key 3 into an all-empty
16-slot array writes slot 3 and reports new. -/
theorem addEntry_first_undefined_slot_spec_witness :
    CkpDictAddEntry (List.replicate 16 emptyEntry) 16 (CkValue.integer 3)
      (CkValue.integer 9) =
      ((List.replicate 16 emptyEntry).set 3
        ⟨CkValue.integer 3, CkValue.integer 9⟩, true) := by
  have h := addEntry_first_undefined_slot_spec.1 (List.replicate 16 emptyEntry)
    16 (CkValue.integer 3) (CkValue.integer 9) 0 (by decide) (by decide)
    (fun i hi => absurd hi (Nat.not_lt_zero i))
  exact h

/-- C3: the Resize precondition NewCapacity > Count is violated at a
reachable call site.  On c3a (24 keys at Capacity 32), removing key 1
reaches the shrink path with Count 23 and requests NewCapacity 16, so the
CK_ASSERT(NewCapacity > Dict->Count) at CkpDictResize's entry fires; the
resize then leaves Count 23 above the new Capacity 16. -/
theorem resize_precondition_violated_on_shrink :
    Reachable c3a ∧
    c3a.Count = 24 ∧ c3a.Capacity = 32 ∧
    CkpDictFindEntry c3a (CkValue.integer 1) = some 1 ∧
    CkpDictRemoveShrinkCondition c3mid = true ∧
    CkpDictRemoveShrinkCapacity c3mid = 16 ∧
    c3mid.Count = 23 ∧
    CkpDictResizeAssert c3mid 16 = false ∧
    (CkpDictRemove c3a (CkValue.integer 1)).1.Count = 23 ∧
    (CkpDictRemove c3a (CkValue.integer 1)).1.Capacity = 16 :=
  ⟨Reachable.removeStep c3d (CkValue.integer 0)
      (reachable_insertAll CkpDictCreate (intKeys 25) Reachable.create),
    by decide, by decide, by decide, by decide, by decide, by decide,
    by decide, by decide, by decide⟩

/-- C4: inserting the 18 distinct integer keys 0..17 and then removing all
18 leaves Count = 1, not 0 (one key is dropped during the erroneous shrink
triggered by the first remove and its removal then fails), even though get
reports not-found for every one of the 18 keys afterwards. -/
theorem churn_roundtrip_leaves_nonzero_count :
    Reachable c4dict ∧
    ((intKeys 18).all fun k =>
      CkpDictGet c4dict k == CK_UNDEFINED_VALUE) = true ∧
    c4dict.Count = 1 :=
  ⟨reachable_removeAll (insertAll CkpDictCreate (intKeys 18)) (intKeys 18)
      (reachable_insertAll CkpDictCreate (intKeys 18) Reachable.create),
    by decide, by decide⟩

/-- C5: a reachable state violating the post-set load-factor invariant.
After inserting keys 0..47, removing keys 0 and 1 (two erroneous shrinks
leave Count 46 at Capacity 16) and setting a fresh key, the dictionary has
Count 47 at Capacity 32, and 47 > 32 * 768 / 1024 = 24. -/
theorem load_factor_invariant_violated_after_set :
    Reachable c5dict ∧
    c5dict.Count = 47 ∧ c5dict.Capacity = 32 ∧
    ¬(c5dict.Count ≤ c5dict.Capacity * DICT_LOAD_FACTOR / 1024) :=
  ⟨Reachable.set _ (CkValue.integer 100) (CkValue.integer 100)
      (Reachable.removeStep _ (CkValue.integer 1)
        (Reachable.removeStep _ (CkValue.integer 0)
          (reachable_insertAll CkpDictCreate (intKeys 48) Reachable.create))),
    by decide, by decide, by decide⟩

/-- Witness for C6 at a concrete input: setting 5 -> 7 in a fresh
dictionary and reading key 5 back yields 7. -/
theorem set_then_get_returns_value_witness :
    CkpDictGet (CkpDictSet CkpDictCreate (CkValue.integer 5)
      (CkValue.integer 7)) (CkValue.integer 5) = CkValue.integer 7 :=
  set_then_get_returns_value CkpDictCreate (CkValue.integer 5)
    (CkValue.integer 7) Reachable.create (by decide)

/-- C7: CkpDictFindEntry reports not-found immediately when Count is 0;
probing from hash(Key) mod Capacity it stops with not-found at the first
Empty slot, continues through Tombstone slots and live slots with other
keys, and returns the first Live slot whose key equals the query key; and
in the concrete two-key scenario, removing key 0 (which lies at the start
of key 16's probe path, leaving a tombstone since no shrink triggers)
keeps key 16 findable through that tombstone. -/
theorem find_probe_spec :
    (∀ (d : CkDict) (k : CkValue), d.Count = 0 →
      CkpDictFindEntry d k = none) ∧
    (∀ (d : CkDict) (k : CkValue) (j : Nat), j < d.Capacity →
      isEmptySlot (entryAt d (probeSlot d k j)) = true →
      (∀ i, i < j →
        isTombstoneSlot (entryAt d (probeSlot d k i)) = true ∨
        (isLiveEntry (entryAt d (probeSlot d k i)) = true ∧
         CkpAreValuesEqual (entryAt d (probeSlot d k i)).Key k = false)) →
      CkpDictFindEntry d k = none) ∧
    (∀ (d : CkDict) (k : CkValue) (j : Nat), d.Count ≠ 0 → j < d.Capacity →
      isLiveEntry (entryAt d (probeSlot d k j)) = true →
      CkpAreValuesEqual (entryAt d (probeSlot d k j)).Key k = true →
      (∀ i, i < j →
        isTombstoneSlot (entryAt d (probeSlot d k i)) = true ∨
        (isLiveEntry (entryAt d (probeSlot d k i)) = true ∧
         CkpAreValuesEqual (entryAt d (probeSlot d k i)).Key k = false)) →
      CkpDictFindEntry d k = some (probeSlot d k j)) ∧
    ((CkpDictRemove c7base (CkValue.integer 0)).2 = CkValue.integer 100 ∧
     entryAt (CkpDictRemove c7base (CkValue.integer 0)).1 0 =
       tombstoneEntry ∧
     CkpDictGet (CkpDictRemove c7base (CkValue.integer 0)).1
       (CkValue.integer 16) = CkValue.integer 116) := by
  refine ⟨?_, ?_, ?_, by decide, by decide, by decide⟩
  · intro d k h
    unfold CkpDictFindEntry
    rw [if_pos h]
  · intro d k j hj hempty hprev
    unfold CkpDictFindEntry
    by_cases hc : d.Count = 0
    · rw [if_pos hc]
    · rw [if_neg hc]
      have hC : 0 < d.Capacity := by omega
      unfold isEmptySlot entryAt probeSlot at hempty
      rw [Bool.and_eq_true] at hempty
      apply findEntryLoop_stops_empty d.Entries d.Capacity k j
        (CkpHashValue k % d.Capacity) d.Capacity (Nat.mod_lt _ hC) hj
        hempty.1 hempty.2
      intro i hi
      rcases hprev i hi with ht | ⟨hl, hne⟩
      · left
        unfold isTombstoneSlot entryAt probeSlot at ht
        rw [Bool.and_eq_true] at ht
        exact ⟨ht.1, by simpa using ht.2⟩
      · right
        unfold isLiveEntry entryAt probeSlot at hl
        unfold entryAt probeSlot at hne
        exact ⟨by simpa using hl, hne⟩
  · intro d k j hc hj hlivej heq hprev
    unfold CkpDictFindEntry
    rw [if_neg hc]
    have hC : 0 < d.Capacity := by omega
    unfold isLiveEntry entryAt probeSlot at hlivej
    unfold entryAt probeSlot at heq
    unfold probeSlot
    apply findEntryLoop_found d.Entries d.Capacity k j
      (CkpHashValue k % d.Capacity) d.Capacity (Nat.mod_lt _ hC) hj
      (by simpa using hlivej) heq
    intro i hi
    rcases hprev i hi with ht | ⟨hl, hne⟩
    · left
      unfold isTombstoneSlot entryAt probeSlot at ht
      rw [Bool.and_eq_true] at ht
      exact ⟨ht.1, by simpa using ht.2⟩
    · right
      unfold isLiveEntry entryAt probeSlot at hl
      unfold entryAt probeSlot at hne
      exact ⟨by simpa using hl, hne⟩

/-- Witness for C7: the empty dictionary reports not-found, and in c7base
key 16 is found at slot 1 behind the live non-matching slot 0. -/
theorem find_probe_spec_witness :
    CkpDictFindEntry CkpDictCreate CK_NULL_VALUE = none ∧
    CkpDictFindEntry c7base (CkValue.integer 16) = some 1 := by
  constructor
  · exact find_probe_spec.1 CkpDictCreate CK_NULL_VALUE rfl
  · have h := find_probe_spec.2.2.1 c7base (CkValue.integer 16) 1
      (by decide) (by decide) (by decide) (by decide)
      (by
        intro i hi
        have hi0 : i = 0 := by omega
        subst hi0
        exact Or.inr ⟨by decide, by decide⟩)
    have h2 : probeSlot c7base (CkValue.integer 16) 1 = 1 := by decide
    rw [h2] at h
    exact h

/-- C8: when the allocation of the new entry array fails, CkpDictResize
leaves the dictionary entirely unchanged. -/
theorem resize_alloc_failure_noop (d : CkDict) (NewCapacity : Nat) :
    CkpDictResize d NewCapacity false = d := rfl

/-- C9: CkpDictRemove of an absent key returns CK_NULL_VALUE and leaves the
dictionary (Count included) untouched; of a present key it returns the
value previously stored there, i.e. exactly what CkpDictGet reported. -/
theorem remove_return_value_spec :
    (∀ (d : CkDict) (k : CkValue), CkpDictFindEntry d k = none →
      CkpDictRemove d k = (d, CK_NULL_VALUE)) ∧
    (∀ (d : CkDict) (k : CkValue) (i : Nat), CkpDictFindEntry d k = some i →
      (CkpDictRemove d k).2 = CkpDictGet d k) := by
  constructor
  · intro d k h
    unfold CkpDictRemove
    rw [h]
  · intro d k i h
    unfold CkpDictRemove CkpDictGet
    rw [h]

/-- Witness for C9: removing absent key 4 from the one-entry dictionary
returns the null sentinel with the state unchanged; removing present key 3
returns the previously stored value. -/
theorem remove_return_value_spec_witness :
    CkpDictRemove c9present (CkValue.integer 4) =
      (c9present, CK_NULL_VALUE) ∧
    (CkpDictRemove c9present (CkValue.integer 3)).2 =
      CkpDictGet c9present (CkValue.integer 3) :=
  ⟨remove_return_value_spec.1 c9present (CkValue.integer 4) (by decide),
   remove_return_value_spec.2 c9present (CkValue.integer 3) 3 (by decide)⟩

/-- C10: the hashing dispatch — Null hashes to 0; an integer hashes to its
low 32 bits by truncation, so -1 hashes to 0xFFFFFFFF which differs from
hash(Null); a class hashes to the cached hash of its name string, exactly
as that string itself does; a range hashes to the XOR of the low 32 bits of
its bounds; any other object hashes to its address shifted right by 4. -/
theorem hash_dispatch_spec :
    CkpHashValue CK_NULL_VALUE = 0 ∧
    (∀ i : Int, CkpHashValue (CkValue.integer i) = (i % 2 ^ 32).toNat) ∧
    CkpHashValue (CkValue.integer (-1)) = 4294967295 ∧
    CkpHashValue (CkValue.integer (-1)) ≠ CkpHashValue CK_NULL_VALUE ∧
    (∀ (s : CkString) (addr : Nat),
      CkpHashValue (CkValue.object (CkObject.classObj s addr)) = s.Hash ∧
      CkpHashValue (CkValue.object (CkObject.string s)) = s.Hash) ∧
    (∀ (f t : Int) (addr : Nat),
      CkpHashValue (CkValue.object (CkObject.range f t addr)) =
        (f % 2 ^ 32).toNat ^^^ (t % 2 ^ 32).toNat) ∧
    (∀ addr : Nat, CkpHashValue (CkValue.object (CkObject.other addr)) =
      (addr >>> 4) % 2 ^ 32) :=
  ⟨rfl, fun i => rfl, by decide, by decide, fun s addr => ⟨rfl, rfl⟩,
    fun f t addr => rfl, fun addr => rfl⟩

end Chalk
